import Mathlib

/-
Verification of peter2500zz/mod-auto-download.

Shallow embedding of src/moderr.py, src/mod.py and src/manager.py.
Network I/O is abstracted: the Modrinth registry is modelled as a finite
association list from project id to the data the HTTP endpoints would
return, and every function that performs a request takes that registry
(or the relevant piece of the response) as an explicit argument.
Error messages are presentational; each error variant keeps exactly the
fields the code dispatches on (the exception class and, for
ModNotFoundError, the except_mod_id used by the optional-chain pruning).
-/

/- ### Dependency descriptors and version records (Modrinth JSON) -/

/-- The dependency_type field of a dependency descriptor.  manager.py indexes
the edge_style table by this string, so only these four values occur. -/
inductive DepType
  | required
  | optional
  | incompatible
  | embedded
deriving DecidableEq, Repr

/-- A raw dependency descriptor as returned by the registry.  mod.py
generate_dep reads version_id / project_id / dependency_type / file_name;
manager.py resolve_dependencies reads project_id and dependency_type.
A JSON null value is modelled as none. -/
structure RawDep where
  version_id : Option String
  project_id : Option String
  dependency_type : DepType
  file_name : Option String
deriving DecidableEq, Repr

/-- A version record (one element of the GET /project/id/version response,
stored as Mod.__current_version).  Only the fields the code reads. -/
structure VersionData where
  version_number : String
  game_versions : List String
  loaders : List String
  dependencies : List RawDep
deriving DecidableEq, Repr

/-- The fields of a resolved project (Mod.__project) the code reads. -/
structure ProjData where
  id : String
  title : String
  slug : String
deriving DecidableEq, Repr

/- ### moderr.py / the ModError taxonomy -/

/-- ModError and its subclasses, plus the anonymous ModError instances
raised inside manager.py, keyed by the data each carries. -/
inductive ModError
  /-- SlugNotValid(bad_slug) raised by Mod.__init__. -/
  | slugNotValid (s : String)
  /-- ModNotFoundError(msg, except_mod_id). -/
  | notFound (except_mod_id : Option String)
  /-- ModError raised by Mod.__not_init (mod used before initialisation). -/
  | notInit (slug : String)
  /-- ModError("依赖无效") raised by mod.py generate_dep. -/
  | invalidDep
  /-- ModError raised in resolve_dependencies when a node kept a None attrs. -/
  | noAttrs (id : String)
  /-- ModError raised when an edge endpoint is missing from the node map. -/
  | badEdge (u v : String)
  /-- ModError raised when a related node is missing during conflict reporting. -/
  | depMissing (v : String)
  /-- The structured incompatibility conflict appended during the edge pass:
  the incompatible target's label, the declaring mod's label, and the labels
  of the mods that genuinely need the target. -/
  | incompat (depLabel modLabel : String) (trueDeps : List String)
deriving DecidableEq, Repr

/- ### Mod.__init__ / slug validation (src/mod.py lines 27-40) -/

/-- Python regex \w, restricted to the ASCII fragment (all inputs in the
claims are ASCII; Python's \w is additionally Unicode-aware). -/
def isWordChar (c : Char) : Bool := c.isAlphanum || c = '_'

/-- The remaining characters of the class [\w!@$()\x60.+,"\-'] in the slug
regex of Mod.__init__ (0x60 is the backquote character). -/
def slugExtraChars : List Char :=
  ['!', '@', '$', '(', ')', Char.ofNat 96, '.', '+', ',', '"', '-', '\'']

def isSlugChar (c : Char) : Bool := isWordChar c || slugExtraChars.contains c

/-- Full-string match of the slug grammar: 3 to 64 characters, all drawn
from the character class. -/
def matchesSlugCore (s : String) : Bool :=
  decide (3 ≤ s.length) && decide (s.length ≤ 64) && s.toList.all isSlugChar

/-- re.search(r"^[\w!@$()\x60.+,\"\-']{3,64}$", s) as mod.py runs it: the
pattern is anchored at position 0 by ^, and Python's $ matches at the end of
the string or just before a single trailing newline, so the search succeeds
iff the whole string matches the grammar or everything before one final
newline character does. -/
def slugSearch (s : String) : Bool :=
  matchesSlugCore s ||
    ((s.toList.getLast? == some '\n') && matchesSlugCore (String.mk s.toList.dropLast))

/-- url.split("/")[-1]: the suffix of the string after its last '/'
(the whole string when no '/' occurs, empty when it ends in '/'). -/
def lastSegment (url : String) : String :=
  String.mk ((url.toList.reverse.takeWhile (fun c => c != '/')).reverse)

/-- The Mod attributes manager.py's resolver reads and writes
(slug_or_id, __project, __current_version). -/
structure ModState where
  slug_or_id : String
  project : Option ProjData
  current_version : Option VersionData
deriving DecidableEq, Repr

/-- Mod.__init__(url): take the last '/'-separated segment, validate it
against the slug regex, and either store it (with all resolution state
unset) or raise SlugNotValid. -/
def modInit (url : String) : Except ModError ModState :=
  let slug_or_id := lastSegment url
  if slugSearch slug_or_id then
    .ok { slug_or_id := slug_or_id, project := none, current_version := none }
  else
    .error (.slugNotValid slug_or_id)

/- ### mod.py dependencies() / generate_dep (lines 191-232) -/

/-- The VerDep / ModDep objects produced by generate_dep. -/
inductive DepObj
  | verDep (id : String) (dep_type : DepType) (file_name : String)
  | modDep (id : String) (dep_type : DepType) (file_name : String)
deriving DecidableEq, Repr

/-- Python truthiness of the walrus test `if id := data.get(k)`:
a missing key (None) and an empty string are both falsy. -/
def truthy : Option String → Option String
  | some "" => none
  | o => o

/-- generate_dep(data): version-pinned if a truthy version_id is present,
else project-pinned if a truthy project_id is present, else
raise ModError("依赖无效"). -/
def generate_dep (data : RawDep) : Except ModError DepObj :=
  match truthy data.version_id with
  | some i => .ok (.verDep i data.dependency_type (data.file_name.getD ""))
  | none =>
    match truthy data.project_id with
    | some i => .ok (.modDep i data.dependency_type (data.file_name.getD ""))
    | none => .error .invalidDep

/-- list(map(f, xs)) where f may raise: elements are produced in order and
the first exception propagates. -/
def mapExcept (f : α → Except ε β) : List α → Except ε (List β)
  | [] => .ok []
  | a :: l => do
    let b ← f a
    let bs ← mapExcept f l
    .ok (b :: bs)

/-- Mod.dependencies(): list(map(generate_dep, version_data["dependencies"])). -/
def modDependencies (ver : VersionData) : Except ModError (List DepObj) :=
  mapExcept generate_dep ver.dependencies

/- ### Mod.query_version (src/mod.py lines 88-127) -/

/-- The client-side filter of query_version: the target game version must be
a member of version["game_versions"] and the target loader a member of
version["loaders"]. -/
def versionMatches (game_version loader : String) (v : VersionData) : Bool :=
  v.game_versions.contains game_version && v.loaders.contains loader

/-- query_version applied to the version list the registry returned for
project pid: scan in order, keep the first entry matching both membership
conditions as __current_version, or raise ModNotFoundError carrying the
project id when no entry matches. -/
def query_version (game_version loader : String) (pid : String)
    (versions : List VersionData) : Except ModError VersionData :=
  match versions.find? (versionMatches game_version loader) with
  | some v => .ok v
  | none => .error (.notFound (some pid))

/- ### RateLimiter (src/manager.py lines 18-41) -/

/-- RateLimiter state: rate_limit = 60 / req_per_min and the shared,
lock-protected last_req timestamp (initially 0.0).  Timestamps are
modelled as rationals. -/
structure RateLimiter where
  rate_limit : ℚ
  last_req : ℚ
deriving Repr

def RateLimiter.init (req_per_min : ℕ) : RateLimiter :=
  { rate_limit := 60 / (req_per_min : ℚ), last_req := 0 }

/-- A trace of the critical sections of RateLimiter.wait.  The lock
serialises the sections, so a run with any number of concurrent callers is
a sequence; each section reads the clock (arrival), sleeps when the gap to
last_req is below rate_limit, reads the clock again (measured) and stores
it as the new last_req.  The constraints state what the code and a monotone
clock guarantee: the clock never goes backwards between the previous store
and the next read (h_arr), the second read is no earlier than the first
(h_meas), and when the sleep branch is taken the second read happens at
least rate_limit after the previous store, because time.sleep waits at
least the requested duration (h_sleep).  The list collects the stored
last_req values in admission order. -/
inductive RLTrace (rate : ℚ) : ℚ → List ℚ → Prop
  | nil (last : ℚ) : RLTrace rate last []
  | cons (last arrival measured : ℚ) (rest : List ℚ)
      (h_arr : last ≤ arrival)
      (h_meas : arrival ≤ measured)
      (h_sleep : arrival - last < rate → last + rate ≤ measured)
      (h_rest : RLTrace rate measured rest) :
      RLTrace rate last (measured :: rest)

/- ### Downloader hash verification (src/manager.py lines 484-519) -/

/-- The fields of mod.file_data the download function reads. -/
structure FileData where
  filename : String
  url : String
  size : ℕ
  sha512 : String
deriving DecidableEq, Repr

/-- str.lower for the ASCII hex digests compared here. -/
def strToLower (s : String) : String := String.mk (s.toList.map Char.toLower)

/-- The buffer after the streaming loop of download: falsy (empty) chunks
are skipped, every other chunk is appended to the BytesIO buffer (and fed
to the hasher) in arrival order. -/
def bufferChunks (chunks : List (List UInt8)) : List UInt8 :=
  chunks.foldl (fun b c => if c.isEmpty then b else b ++ c) []

/-- The download worker of download_mods, after the byte stream finished:
compute the SHA-512 hex digest of the hashed bytes (incremental hashing of
the chunks equals hashing their concatenation, so the digest function is
applied to the buffer), lower-case it, and compare with the declared
digest.  On mismatch raise ValueError and write nothing; on match write
the buffered bytes to downloadDir/filename.  The digest function is an
abstract parameter; the returned pair is the written file name and its
exact content. -/
def downloadVerify (sha512hex : List UInt8 → String) (fd : FileData)
    (chunks : List (List UInt8)) : Except String (String × List UInt8) :=
  let buffered := bufferChunks chunks
  let actual := strToLower (sha512hex buffered)
  if actual ≠ fd.sha512 then .error (fd.filename ++ " 的哈希校验失败")
  else .ok (fd.filename, buffered)

/- ### Python dict as an insertion-ordered association list -/

/-- Python dict assignment d[k] = v: overwrite in place when the key
exists, append otherwise. -/
def dictSet (l : List (String × α)) (k : String) (v : α) : List (String × α) :=
  if l.any (fun p => p.1 == k) then
    l.map (fun p => if p.1 == k then (k, v) else p)
  else l ++ [(k, v)]

/-- k in d. -/
def dictContains (l : List (String × α)) (k : String) : Bool :=
  l.any (fun p => p.1 == k)

/-- d.get(k). -/
def dictGet (l : List (String × α)) (k : String) : Option α :=
  (l.find? (fun p => p.1 == k)).map (fun p => p.2)

/- ### The registry seen by resolve_dependencies -/

/-- What GET /project/pid and GET /project/pid/version return for one
project id: project metadata, the side-support declarations checked by
Mod.init, and the version list consumed by Mod.query_version.  The id
field of the returned project metadata equals the id it was queried by. -/
structure RegEntry where
  title : String
  slug : String
  client_side : String
  server_side : String
  versions : List VersionData
deriving DecidableEq, Repr

/-- The registry: project id to its data; an absent id is a 404. -/
abbrev Registry := List (String × RegEntry)

/-- The ModManager configuration fields resolve_dependencies reads. -/
structure Cfg where
  target_version : String
  target_loader : String
  require_client : Bool
  require_server : Bool
  allow_optional_mod : Bool
deriving Repr

/-- The worker body used for dependency mods in resolve_dependencies:
mod.init(...) followed by mod.query_version(...).  Returns the Mod as the
two calls leave it, together with the ModError raised, if any:
a 404 leaves __project unset and raises ModNotFoundError with
except_mod_id None; an unsupported required side raises ModNotFoundError
tagged with the project id after storing the project; otherwise
query_version either stores the first matching version or raises the
NotFound produced by query_version. -/
def resolveDepMod (cfg : Cfg) (reg : Registry) (m : ModState) :
    ModState × Option ModError :=
  match dictGet reg m.slug_or_id with
  | none => (m, some (.notFound none))
  | some e =>
    let m := { m with project := some ⟨m.slug_or_id, e.title, e.slug⟩ }
    if cfg.require_client && (e.client_side == "unsupported") then
      (m, some (.notFound (some m.slug_or_id)))
    else if cfg.require_server && (e.server_side == "unsupported") then
      (m, some (.notFound (some m.slug_or_id)))
    else
      match query_version cfg.target_version cfg.target_loader m.slug_or_id e.versions with
      | .ok v => ({ m with current_version := some v }, none)
      | .error err => (m, some err)

/- ### resolve_dependencies: frontier expansion (manager.py lines 184-318) -/

/-- The display attributes stored per node (the "type" entry of the edge
styles is modelled by the DepType carried on edges; the remaining style
entries are colors and labels). -/
structure NodeInfo where
  label : String
  baseLabel : String
  color : String
  version : Option VersionData
  href : String
deriving DecidableEq, Repr

/-- An edge (dependency target id, declaring mod id, dependency type),
exactly the tuples appended to the edges list. -/
abbrev Edge := String × String × DepType

/-- The notices appended to finalmsg that the claims observe (the
optional-chain removal message of manager.py line 338). -/
inductive Notice
  | prunedOptional (id : String)
deriving DecidableEq, Repr

def pruneNotice (d : String) : Notice := .prunedOptional d

/-- The mutable state of resolve_dependencies: the node map, the edge
list, the collected errors, all_mods, the emitted notices, and the
dep_mods accumulator of the current round. -/
structure LoopState where
  nodes : List (String × Option NodeInfo)
  edges : List Edge
  errors : List ModError
  all_mods : List (String × ModState)
  msgs : List Notice
  queued : List ModState
deriving DecidableEq, Repr

def initState : LoopState :=
  { nodes := [], edges := [], errors := [], all_mods := [], msgs := [], queued := [] }

/-- mod.id(): project_data()["id"], raising ModError when the project was
never resolved. -/
def ModState.projE (m : ModState) : Except ModError ProjData :=
  match m.project with
  | some p => .ok p
  | none => .error (.notInit m.slug_or_id)

/-- The red node recorded for a mod whose version resolution
failed (the "(无法获取)" suffix marks it in the rendered graph). -/
def failedNode (p : ProjData) : NodeInfo :=
  { label := p.title ++ " (无法获取)", baseLabel := p.title, color := "red",
    version := none, href := "https://modrinth.com/mod/" ++ p.slug }

/-- The normal node recorded for a version-resolved mod. -/
def okNode (p : ProjData) (v : VersionData) : NodeInfo :=
  { label := p.title, baseLabel := p.title, color := "lightgreen",
    version := some v, href := "https://modrinth.com/mod/" ++ p.slug }

/-- The body of the inner `for dep in deps` loop (manager.py lines
270-291): skip descriptors with a null project id, and incompatible or
(when optional mods are not allowed) optional dependencies whose target is
not already a node; otherwise append the typed edge, and when the target
is new, reserve a None node for it and queue Mod(project_id) — whose
constructor validates the id — for resolution in the second half of the
round.  met_condition only feeds the final legend and is not modelled. -/
def processDep (cfg : Cfg) (mid : String) (st : LoopState) (dep : RawDep) :
    Except ModError LoopState :=
  let mod_already_exists : Bool :=
    match dep.project_id with
    | some pid => dictContains st.nodes pid
    | none => false
  let mod_incompatible : Bool := dep.dependency_type == DepType.incompatible
  let mod_optional : Bool := !cfg.allow_optional_mod && (dep.dependency_type == DepType.optional)
  match dep.project_id with
  | none => .ok st
  | some pid =>
    if (mod_incompatible || mod_optional) && !mod_already_exists then .ok st
    else
      let st := { st with edges := st.edges ++ [(pid, mid, dep.dependency_type)] }
      if mod_already_exists then .ok st
      else
        let st := { st with nodes := dictSet st.nodes pid none }
        match modInit pid with
        | .ok m => .ok { st with queued := st.queued ++ [m] }
        | .error e => .error e

/-- One mod of the current frontier (manager.py lines 239-291): store it in
all_mods under mod.id() — which raises ModError, uncaught, when the
project never resolved —, record the red node and stop when version_data()
raises ModNotFoundError, otherwise record the normal node and walk its
dependency list. -/
def processFrontierMod (cfg : Cfg) (st : LoopState) (m : ModState) :
    Except ModError LoopState := do
  let p ← m.projE
  let st := { st with all_mods := dictSet st.all_mods p.id m }
  match m.current_version with
  | none =>
    .ok { st with nodes := dictSet st.nodes p.id (some (failedNode p)) }
  | some v =>
    let st := { st with nodes := dictSet st.nodes p.id (some (okNode p v)) }
    v.dependencies.foldlM (processDep cfg p.id) st

/-- One iteration of the while loop: the sequential first half over the
frontier, then the concurrent resolution of the queued dependency mods.
The futures are modelled in submission order (as_completed only permutes
the order in which errors are appended; the claims do not depend on it).
Returns the updated state and the next frontier (dep_mods, as mutated by
the workers). -/
def runRound (cfg : Cfg) (reg : Registry) (st : LoopState)
    (frontier : List ModState) : Except ModError (LoopState × List ModState) := do
  let st ← frontier.foldlM (processFrontierMod cfg) { st with queued := [] }
  let results := st.queued.map (resolveDepMod cfg reg)
  let newErrors := results.filterMap (fun r => r.2)
  .ok ({ st with errors := st.errors ++ newErrors, queued := [] },
       results.map (fun r => r.1))

/-- The while loop, with explicit fuel (the loop itself has no bound in
the source; resolverTerminates shows the fuel below always suffices). -/
def expandLoop (cfg : Cfg) (reg : Registry) :
    ℕ → LoopState → List ModState → Option (Except ModError LoopState)
  | 0, _, _ => none
  | _ + 1, st, [] => some (.ok st)
  | fuel + 1, st, m :: ms =>
    match runRound cfg reg st (m :: ms) with
    | .error e => some (.error e)
    | .ok (st', next) => expandLoop cfg reg fuel st' next

/- ### Seeds: the mods list as it stands when resolve_dependencies runs -/

/-- A seed mod: resolve_dependencies is reached through the pipeline only
after init_mod succeeded for every seed, so the project data is present
(the code would otherwise crash on mod.id() at once); check_version may or
may not have stored a version. -/
structure SeedMod where
  slug_or_id : String
  project : ProjData
  current_version : Option VersionData
deriving DecidableEq, Repr

def SeedMod.toModState (s : SeedMod) : ModState :=
  { slug_or_id := s.slug_or_id, project := some s.project,
    current_version := s.current_version }

/- ### Optional-chain pruning (manager.py lines 320-338) -/

/-- One iteration of the `for error in errors.copy()` loop: for a
ModNotFoundError carrying a target id, collect the edges whose source is
that id; when all of them are optional and no seed mod has that id, remove
the error, the all_mods entry, the node and every edge sourced at the id,
and append the removal notice.  The Python `del` statements would raise on
an absent key; in every state the loop produces the key is present (the
failed mod entered nodes and all_mods in the round after it was queued),
so deletion is modelled as filtering.  `errors.remove` deletes the first
matching entry. -/
def pruneStep (seeds : List SeedMod) (st : LoopState) (err : ModError) : LoopState :=
  match err with
  | .notFound (some d) =>
    let results := st.edges.filter (fun e => e.1 == d)
    if results.all (fun e => e.2.2 == DepType.optional)
        && !(seeds.any (fun s => s.project.id == d)) then
      { st with
        errors := st.errors.erase err,
        all_mods := st.all_mods.filter (fun p => p.1 != d),
        nodes := st.nodes.filter (fun p => p.1 != d),
        edges := st.edges.filter (fun e => e.1 != d),
        msgs := st.msgs ++ [pruneNotice d] }
    else st
  | _ => st

/-- The whole pruning pass: iterate over a copy of the error list, state
updates (including the rebinding of edges) being visible to later
iterations. -/
def pruneErrors (seeds : List SeedMod) (st : LoopState) : LoopState :=
  st.errors.foldl (pruneStep seeds) st

/- ### Graph finalisation and incompatibility detection (lines 340-422) -/

/-- The node recoloring of the `for nid, attrs in nodes.items()` loop:
seed nodes turn green; otherwise nodes whose every incident edge (sourced
at them) is optional and which no seed requested turn lightgrey. -/
def recolorNode (seeds : List SeedMod) (edges : List Edge) (nid : String)
    (a : NodeInfo) : NodeInfo :=
  if seeds.any (fun m => nid == m.project.id) then { a with color := "green" }
  else
    let results := edges.filter (fun e => e.1 == nid)
    if results.all (fun e => e.2.2 == DepType.optional)
        && !(seeds.any (fun s => s.project.id == nid)) then
      { a with color := "lightgrey" }
    else a

/-- The node pass: a node still carrying None attributes raises ModError;
otherwise the recolored node is added to the graph. -/
def buildNodes (seeds : List SeedMod) (edges : List Edge)
    (nodes : List (String × Option NodeInfo)) :
    Except ModError (List (String × NodeInfo)) :=
  mapExcept (fun p =>
    match p.2 with
    | none => Except.error (ModError.noAttrs p.1)
    | some a => Except.ok (p.1, recolorNode seeds edges p.1 a)) nodes

/-- For an incompatible edge sourced at u: every edge sourced at u whose
sink node exists (a missing sink raises) and whose type is neither
incompatible nor embedded contributes the sink's label to the list of mods
that genuinely need u. -/
def trueDepsOf (nodes : List (String × NodeInfo)) (edges : List Edge)
    (u : String) : Except ModError (List String) :=
  (edges.filter (fun e => e.1 == u)).foldlM
    (fun acc e =>
      match dictGet nodes e.2.1 with
      | none => Except.error (ModError.depMissing e.2.1)
      | some dm =>
        if (e.2.2 == DepType.incompatible) || (e.2.2 == DepType.embedded) then
          Except.ok acc
        else Except.ok (acc ++ [dm.baseLabel]))
    []

/-- One edge of the edge pass: check both endpoints exist, and when the
edge is incompatible append one structured conflict built from the labels
of the incompatible target, the declaring mod, and the mods needing the
target. -/
def edgeErrStep (nodes : List (String × NodeInfo)) (edges : List Edge)
    (acc : List ModError) (e : Edge) : Except ModError (List ModError) :=
  match dictGet nodes e.2.1, dictGet nodes e.1 with
  | some m, some d =>
    match e.2.2 with
    | DepType.incompatible => do
      let tds ← trueDepsOf nodes edges e.1
      Except.ok (acc ++ [ModError.incompat d.baseLabel m.baseLabel tds])
    | _ => Except.ok acc
  | _, _ => Except.error (ModError.badEdge e.1 e.2.1)

/-- The edge pass over the whole edge list. -/
def edgeErrors (nodes : List (String × NodeInfo)) (edges : List Edge) :
    Except ModError (List ModError) :=
  edges.foldlM (edgeErrStep nodes edges) []

/-- The output of resolve_dependencies: the finalized node map and edge
list (what net.from_nx consumes), the final error list, the emitted
notices, and the returned boolean (continue to download iff no error
remains). -/
structure RunResult where
  nodes : List (String × NodeInfo)
  edges : List Edge
  errors : List ModError
  msgs : List Notice
  shouldContinue : Bool
deriving DecidableEq, Repr

/-- Graph finalisation after pruning: build the node map, append the
incompatibility conflicts to the error list, and return False iff any
error remains. -/
def graphPhase (seeds : List SeedMod) (st : LoopState) : Except ModError RunResult := do
  let nodes ← buildNodes seeds st.edges st.nodes
  let incompatErrs ← edgeErrors nodes st.edges
  let errors := st.errors ++ incompatErrs
  .ok { nodes := nodes, edges := st.edges, errors := errors, msgs := st.msgs,
        shouldContinue := errors.isEmpty }

/- ### The full resolve_dependencies and its termination bound -/

/-- The project ids referenced by the dependency list of a version. -/
def depIds : Option VersionData → List String
  | none => []
  | some v => v.dependencies.filterMap (fun d => d.project_id)

/-- The dependency targets mentioned anywhere in the registry. -/
def regDepIds (reg : Registry) : List String :=
  reg.flatMap (fun p => p.2.versions.flatMap (fun v => depIds (some v)))

/-- Every project id that can ever be queued: the dependency targets of
the seeds' chosen versions and of every version in the registry. -/
def allIds (reg : Registry) (seeds : List SeedMod) : List String :=
  (seeds.flatMap (fun s => depIds s.current_version)) ++ regDepIds reg

/-- Fuel that always suffices for expandLoop: every round with a nonempty
next frontier adds at least one id of allIds to the node map, and ids
already present are never re-queued. -/
def fuelBound (reg : Registry) (seeds : List SeedMod) : ℕ :=
  (allIds reg seeds).length + 2

/-- resolve_dependencies(allow_optional_mod) for a registry and seed list:
run the frontier loop from the seeds, then the pruning pass, then graph
finalisation.  none (fuel exhaustion) never occurs — resolverTerminates. -/
def resolve_dependencies (cfg : Cfg) (reg : Registry) (seeds : List SeedMod) :
    Option (Except ModError RunResult) :=
  match expandLoop cfg reg (fuelBound reg seeds) initState
      (seeds.map SeedMod.toModState) with
  | none => none
  | some (.error e) => some (.error e)
  | some (.ok st) => some (graphPhase seeds (pruneErrors seeds st))

/- ### Helper lemmas -/

lemma mapExcept_error_of_mem {α β ε} {f : α → Except ε β} {l : List α} {a : α}
    {e : ε} (ha : a ∈ l) (he : f a = .error e) :
    ∃ e', mapExcept f l = .error e' := by
  induction l with
  | nil => cases ha
  | cons x xs ih =>
    rcases List.mem_cons.mp ha with h | h
    · subst h
      exact ⟨e, by simp only [mapExcept, he]; rfl⟩
    · cases hfx : f x with
      | error e2 => exact ⟨e2, by simp only [mapExcept, hfx]; rfl⟩
      | ok b =>
        obtain ⟨e', he'⟩ := ih h
        exact ⟨e', by simp only [mapExcept, hfx, he']; rfl⟩

lemma find?_decomp {α} (p : α → Bool) :
    ∀ (l : List α) (a : α), l.find? p = some a →
      p a = true ∧ ∃ l₁ l₂, l = l₁ ++ a :: l₂ ∧ ∀ x ∈ l₁, p x = false := by
  intro l
  induction l with
  | nil => intro a h; simp [List.find?] at h
  | cons x xs ih =>
    intro a h
    by_cases hx : p x = true
    · rw [List.find?_cons_of_pos _ hx] at h
      cases h
      exact ⟨hx, [], xs, rfl, by simp⟩
    · rw [List.find?_cons_of_neg _ hx] at h
      obtain ⟨hpa, l₁, l₂, hl, hall⟩ := ih a h
      refine ⟨hpa, x :: l₁, l₂, by rw [hl]; rfl, ?_⟩
      intro u hu
      rcases List.mem_cons.mp hu with h1 | h1
      · subst h1; exact Bool.not_eq_true _ ▸ (by simpa using hx)
      · exact hall u h1

lemma foldl_append_flatten :
    ∀ (l : List (List UInt8)) (acc : List UInt8),
      List.foldl (fun b c => b ++ c) acc l = acc ++ l.flatten := by
  intro l
  induction l with
  | nil => intro acc; simp
  | cons x xs ih => intro acc; simp [List.foldl_cons, ih, List.append_assoc]

lemma bufferChunks_eq_flatten (chunks : List (List UInt8)) :
    bufferChunks chunks = chunks.flatten := by
  have hstep : ∀ (b c : List UInt8), (if c.isEmpty then b else b ++ c) = b ++ c := by
    intro b c; cases c <;> simp
  simp only [bufferChunks, hstep]
  simpa using foldl_append_flatten chunks []

lemma rlTrace_chain (rate last : ℚ) (ts : List ℚ) (h : RLTrace rate last ts) :
    List.Chain (fun a b => a + rate ≤ b) last ts := by
  induction h with
  | nil => exact List.Chain.nil
  | cons last arrival measured rest h_arr h_meas h_sleep h_rest ih =>
    refine List.Chain.cons ?_ ih
    by_cases hc : arrival - last < rate
    · have := h_sleep hc; linarith
    · push_neg at hc; linarith

deriving instance DecidableEq for Except

/- ### Claim theorems -/

/-- C8 (counterexample): the claim "construction fails for every input
string that does not match the slug grammar" is false.  Both inputs fail
the grammar as a whole — "a b/sodium" contains a space and a '/',
"abcd\n" a newline — yet Mod.__init__ succeeds on both: validation only
sees the substring after the last '/', and Python's $ also matches before
one trailing newline. -/
theorem slug_validation_counterexample :
    (matchesSlugCore "a b/sodium" = false ∧
      modInit "a b/sodium" = .ok ⟨"sodium", none, none⟩) ∧
    (matchesSlugCore "abcd\n" = false ∧
      modInit "abcd\n" = .ok ⟨"abcd\n", none, none⟩) := by
  refine ⟨⟨by decide, by decide⟩, ⟨by decide, by decide⟩⟩

/-- C8 (amended): Mod construction validates the substring after the last
'/' of the input, with Python re.search semantics ($ also matching before
one trailing newline): it succeeds, storing that segment as slug_or_id,
exactly when the segment passes that check, and otherwise fails with
SlugNotValid carrying the segment. -/
theorem slug_validation_amended (url : String) :
    (slugSearch (lastSegment url) = true →
      modInit url = .ok ⟨lastSegment url, none, none⟩) ∧
    (slugSearch (lastSegment url) = false →
      modInit url = .error (.slugNotValid (lastSegment url))) := by
  constructor <;> intro h <;> simp [modInit, h]

/-- C8 (witness for the amended claim) at one accepted and one rejected
input. -/
theorem slug_validation_amended_witness :
    (slugSearch (lastSegment "a!b/mod_x") = true ∧
      modInit "a!b/mod_x" = .ok ⟨lastSegment "a!b/mod_x", none, none⟩) ∧
    (slugSearch (lastSegment "zz") = false ∧
      modInit "zz" = .error (.slugNotValid (lastSegment "zz"))) := by
  exact ⟨⟨by decide, (slug_validation_amended "a!b/mod_x").1 (by decide)⟩,
    ⟨by decide, (slug_validation_amended "zz").2 (by decide)⟩⟩

/-- C10: Mod construction validates only the final '/'-separated segment
of the input: whenever that segment matches the slug grammar, construction
succeeds and the stored slug_or_id is that segment (regardless of whether
the input as a whole matches the grammar). -/
theorem url_segment_validation (url : String)
    (h : matchesSlugCore (lastSegment url) = true) :
    modInit url = .ok ⟨lastSegment url, none, none⟩ := by
  have hs : slugSearch (lastSegment url) = true := by
    simp [slugSearch, h]
  simp [modInit, hs]

/-- C10 (witness): a full URL that does not match the slug grammar itself,
whose final segment does. -/
theorem url_segment_validation_witness :
    matchesSlugCore "https://modrinth.com/mod/sodium" = false ∧
    modInit "https://modrinth.com/mod/sodium" =
      .ok ⟨lastSegment "https://modrinth.com/mod/sodium", none, none⟩ := by
  exact ⟨by decide, url_segment_validation "https://modrinth.com/mod/sodium" (by decide)⟩

/-- C9 (counterexample): a dependency descriptor carrying neither a
version id nor a project id is not silently dropped — dependencies()
raises ModError("依赖无效") on it. -/
theorem dependency_mapping_counterexample :
    modDependencies
      ⟨"1.0", [], [],
        [⟨none, none, DepType.required, none⟩]⟩ =
      .error ModError.invalidDep := by
  decide

/-- C9 (amended): generate_dep maps a descriptor with a truthy version id
to a version-pinned VerDep, else one with a truthy project id to a
project-pinned ModDep, and raises ModError for a descriptor with neither;
a version containing such a descriptor makes dependencies() raise instead
of returning a list. -/
theorem dependency_mapping_amended (d : RawDep) :
    (∀ i, truthy d.version_id = some i →
      generate_dep d = .ok (.verDep i d.dependency_type (d.file_name.getD ""))) ∧
    (truthy d.version_id = none → ∀ i, truthy d.project_id = some i →
      generate_dep d = .ok (.modDep i d.dependency_type (d.file_name.getD ""))) ∧
    (truthy d.version_id = none → truthy d.project_id = none →
      generate_dep d = .error .invalidDep) ∧
    (∀ vd : VersionData, d ∈ vd.dependencies → truthy d.version_id = none →
      truthy d.project_id = none → ∃ e, modDependencies vd = .error e) := by
  refine ⟨?_, ?_, ?_, ?_⟩
  · intro i h; simp [generate_dep, h]
  · intro h i h2; simp [generate_dep, h, h2]
  · intro h h2; simp [generate_dep, h, h2]
  · intro vd hmem h h2
    have hge : generate_dep d = .error ModError.invalidDep := by
      simp [generate_dep, h, h2]
    exact mapExcept_error_of_mem hmem hge

/-- C9 (witness for the amended claim): one descriptor of each shape. -/
theorem dependency_mapping_amended_witness :
    generate_dep ⟨some "VVVV", some "PPPP", DepType.required, none⟩ =
      .ok (.verDep "VVVV" DepType.required "") ∧
    generate_dep ⟨none, some "PPPP", DepType.optional, none⟩ =
      .ok (.modDep "PPPP" DepType.optional "") ∧
    generate_dep ⟨none, none, DepType.required, none⟩ = .error .invalidDep ∧
    (∃ e, modDependencies ⟨"1.0", [], [],
      [⟨none, none, DepType.required, none⟩]⟩ = .error e) := by
  refine ⟨(dependency_mapping_amended _).1 "VVVV" (by decide),
    (dependency_mapping_amended _).2.1 (by decide) "PPPP" (by decide),
    (dependency_mapping_amended _).2.2.1 (by decide) (by decide),
    (dependency_mapping_amended (⟨none, none, DepType.required, none⟩ : RawDep)).2.2.2
      ⟨"1.0", [], [], [⟨none, none, DepType.required, none⟩]⟩
      (by decide) (by decide) (by decide)⟩

/-- C6: query_version selects the first registry-returned entry whose
game_versions list contains the target game version and whose loaders list
contains the target loader, and raises NotFound (tagged with the project
id) exactly when no entry satisfies both membership conditions. -/
theorem version_selection (gv ld pid : String) (vs : List VersionData) :
    (∀ v, query_version gv ld pid vs = .ok v →
      versionMatches gv ld v = true ∧
      ∃ l₁ l₂, vs = l₁ ++ v :: l₂ ∧ ∀ u ∈ l₁, versionMatches gv ld u = false) ∧
    (query_version gv ld pid vs = .error (.notFound (some pid)) ↔
      ∀ v ∈ vs, versionMatches gv ld v = false) := by
  constructor
  · intro v h
    simp only [query_version] at h
    cases hf : vs.find? (versionMatches gv ld) with
    | none => rw [hf] at h; cases h
    | some w =>
      rw [hf] at h
      simp only [Except.ok.injEq] at h
      subst h
      exact find?_decomp _ vs w hf
  · cases hf : vs.find? (versionMatches gv ld) with
    | none =>
      constructor
      · intro _ v hv
        have h2 := List.find?_eq_none.mp hf v hv
        simpa using h2
      · intro _
        simp [query_version, hf]
    | some w =>
      constructor
      · intro h
        simp [query_version, hf] at h
      · intro hall
        have hnone : vs.find? (versionMatches gv ld) = none :=
          List.find?_eq_none.mpr (fun v hv => by simp [hall v hv])
        rw [hnone] at hf
        cases hf

/-- C6 (witness): a list where the second entry is the first match, and a
list with no match. -/
theorem version_selection_witness :
    (versionMatches "1.20.1" "forge"
        (⟨"1.0", ["1.20.1"], ["forge"], []⟩ : VersionData) = true ∧
      ∃ l₁ l₂,
        ([⟨"0.9", ["1.19.2"], ["forge"], []⟩,
          ⟨"1.0", ["1.20.1"], ["forge"], []⟩] : List VersionData) =
          l₁ ++ (⟨"1.0", ["1.20.1"], ["forge"], []⟩ : VersionData) :: l₂ ∧
        ∀ u ∈ l₁, versionMatches "1.20.1" "forge" u = false) ∧
    query_version "1.20.1" "forge" "PPPP"
      [(⟨"0.9", ["1.19.2"], ["forge"], []⟩ : VersionData)] =
      .error (.notFound (some "PPPP")) := by
  constructor
  · exact (version_selection "1.20.1" "forge" "PPPP" _).1 _ (by decide)
  · exact (version_selection "1.20.1" "forge" "PPPP" _).2.mpr (by decide)

/-- C5: for every mod file, when the lower-cased SHA-512 hex digest of the
received byte stream differs from the registry-declared digest, no file is
written and the integrity ValueError is produced; when they agree, the
buffered bytes — exactly the concatenation of the received chunks — are
written to downloadDir/declaredFilename and no error is produced. -/
theorem hash_verification (sha512hex : List UInt8 → String) (fd : FileData)
    (chunks : List (List UInt8)) :
    (strToLower (sha512hex (bufferChunks chunks)) ≠ fd.sha512 →
      downloadVerify sha512hex fd chunks =
        .error (fd.filename ++ " 的哈希校验失败")) ∧
    (strToLower (sha512hex (bufferChunks chunks)) = fd.sha512 →
      downloadVerify sha512hex fd chunks = .ok (fd.filename, bufferChunks chunks) ∧
      bufferChunks chunks = chunks.flatten) := by
  constructor
  · intro h; simp [downloadVerify, h]
  · intro h; exact ⟨by simp [downloadVerify, h], bufferChunks_eq_flatten chunks⟩

/-- C5 (witness): a mismatching and a matching digest over the same
two-chunk stream. -/
theorem hash_verification_witness :
    downloadVerify (fun _ => "AB") ⟨"m.jar", "u", 2, "zz"⟩ [[1], [2]] =
      .error ("m.jar" ++ " 的哈希校验失败") ∧
    (downloadVerify (fun _ => "AB") ⟨"m.jar", "u", 2, "ab"⟩ [[1], [2]] =
      .ok ("m.jar", bufferChunks [[1], [2]]) ∧
      bufferChunks [[1], [2]] = List.flatten [[1], [2]]) := by
  exact ⟨(hash_verification (fun _ => "AB") ⟨"m.jar", "u", 2, "zz"⟩ [[1], [2]]).1 (by decide),
    (hash_verification (fun _ => "AB") ⟨"m.jar", "u", 2, "ab"⟩ [[1], [2]]).2 (by decide)⟩

/-- C7: across any serialized sequence of RateLimiter.wait critical
sections (the lock serialises all concurrent callers), the recorded
admission timestamps are spaced at least rate_limit = 60 / req_per_min
apart: every consecutive gap of the admission sequence is at least the
interval. -/
theorem rate_limiter_spacing (req_per_min : ℕ) (hpos : 0 < req_per_min)
    (ts : List ℚ) (htr : RLTrace (RateLimiter.init req_per_min).rate_limit 0 ts) :
    List.Chain' (fun a b => a + 60 / (req_per_min : ℚ) ≤ b) ts := by
  have hchain := rlTrace_chain (RateLimiter.init req_per_min).rate_limit 0 ts htr
  have h0 : List.Chain' (fun a b => a + (RateLimiter.init req_per_min).rate_limit ≤ b)
      ((0 : ℚ) :: ts) := hchain
  exact h0.tail

/-- C7 (witness): a two-admission trace at 300 requests per minute
(interval 1/5). -/
theorem rate_limiter_spacing_witness :
    List.Chain' (fun a b => a + 60 / ((300 : ℕ) : ℚ) ≤ b) [(1 : ℚ)/5, 2/5] := by
  apply rate_limiter_spacing 300 (by norm_num)
  refine RLTrace.cons 0 0 (1/5) [2/5] le_rfl (by norm_num)
    (fun _ => by norm_num [RateLimiter.init]) ?_
  refine RLTrace.cons (1/5) (3/10) (2/5) [] (by norm_num) (by norm_num)
    (fun _ => by norm_num [RateLimiter.init]) (RLTrace.nil _)

/- ### Lemmas about the pruning pass -/

/-- pruneStep either leaves the state unchanged or, for a
ModNotFoundError whose id passes the all-optional/no-seed guard, performs
exactly the removal block. -/
lemma pruneStep_spec (seeds : List SeedMod) (st : LoopState) (err : ModError) :
    pruneStep seeds st err = st ∨
    ∃ d, err = .notFound (some d) ∧
      ((st.edges.filter (fun e => e.1 == d)).all (fun e => e.2.2 == DepType.optional)
        && !(seeds.any (fun s => s.project.id == d))) = true ∧
      pruneStep seeds st err =
        { st with
          errors := st.errors.erase err,
          all_mods := st.all_mods.filter (fun p => p.1 != d),
          nodes := st.nodes.filter (fun p => p.1 != d),
          edges := st.edges.filter (fun e => e.1 != d),
          msgs := st.msgs ++ [pruneNotice d] } := by
  cases err with
  | notFound o =>
    cases o with
    | none => left; rfl
    | some d =>
      by_cases hg : ((st.edges.filter (fun e => e.1 == d)).all
          (fun e => e.2.2 == DepType.optional)
          && !(seeds.any (fun s => s.project.id == d))) = true
      · right
        exact ⟨d, rfl, hg, by simp only [pruneStep, hg, if_true]⟩
      · left
        simp only [pruneStep]
        rw [if_neg]
        exact hg
  | slugNotValid s => left; rfl
  | notInit s => left; rfl
  | invalidDep => left; rfl
  | noAttrs i => left; rfl
  | badEdge u v => left; rfl
  | depMissing v => left; rfl
  | incompat a b c => left; rfl

lemma pruneStep_edges_sub (seeds : List SeedMod) (st : LoopState) (err : ModError) :
    ∀ e ∈ (pruneStep seeds st err).edges, e ∈ st.edges := by
  rcases pruneStep_spec seeds st err with h | ⟨d, _, _, h⟩ <;> rw [h]
  · intro e he; exact he
  · intro e he; exact (List.mem_filter.mp he).1

lemma pruneStep_nodes_sub (seeds : List SeedMod) (st : LoopState) (err : ModError) :
    ∀ p ∈ (pruneStep seeds st err).nodes, p ∈ st.nodes := by
  rcases pruneStep_spec seeds st err with h | ⟨d, _, _, h⟩ <;> rw [h]
  · intro p hp; exact hp
  · intro p hp; exact (List.mem_filter.mp hp).1

lemma pruneStep_msgs_mono (seeds : List SeedMod) (st : LoopState) (err : ModError) :
    ∀ m ∈ st.msgs, m ∈ (pruneStep seeds st err).msgs := by
  rcases pruneStep_spec seeds st err with h | ⟨d, _, _, h⟩ <;> rw [h]
  · intro m hm; exact hm
  · intro m hm; exact List.mem_append_left _ hm

/-- The boolean guard of the pruning step holds when every edge sourced at
d is optional and no seed has id d. -/
lemma guard_true_of_pre {seeds : List SeedMod} {st : LoopState} {d : String}
    (hall : ∀ e ∈ st.edges, e.1 = d → e.2.2 = DepType.optional)
    (hseed : ∀ s ∈ seeds, s.project.id ≠ d) :
    ((st.edges.filter (fun e => e.1 == d)).all (fun e => e.2.2 == DepType.optional)
      && !(seeds.any (fun s => s.project.id == d))) = true := by
  rw [Bool.and_eq_true]
  constructor
  · rw [List.all_eq_true]
    intro e he
    have h1 := List.mem_filter.mp he
    have h2 : e.1 = d := by simpa using h1.2
    have h3 := hall e h1.1 h2
    simp [h3]
  · rw [Bool.not_eq_true', List.any_eq_false]
    intro s hs
    simpa using hseed s hs

/-- After a state already shows the removal (no node keyed d, no edge
sourced at d, notice emitted), the rest of the pruning fold preserves it. -/
lemma pruned_preserved (seeds : List SeedMod) (d : String) :
    ∀ (L : List ModError) (st : LoopState),
      (∀ p ∈ st.nodes, p.1 ≠ d) → (∀ e ∈ st.edges, e.1 ≠ d) →
      pruneNotice d ∈ st.msgs →
      (∀ p ∈ (L.foldl (pruneStep seeds) st).nodes, p.1 ≠ d) ∧
      (∀ e ∈ (L.foldl (pruneStep seeds) st).edges, e.1 ≠ d) ∧
      pruneNotice d ∈ (L.foldl (pruneStep seeds) st).msgs := by
  intro L
  induction L with
  | nil => intro st h1 h2 h3; exact ⟨h1, h2, h3⟩
  | cons e rest ih =>
    intro st h1 h2 h3
    refine ih (pruneStep seeds st e) ?_ ?_ ?_
    · intro p hp; exact h1 p (pruneStep_nodes_sub seeds st e p hp)
    · intro x hx; exact h2 x (pruneStep_edges_sub seeds st e x hx)
    · exact pruneStep_msgs_mono seeds st e _ h3

/-- Once the fold reaches an occurrence of the NotFound error for d, the
removal block fires (the guard holds since edges only shrink), and stays. -/
lemma prune_fires (seeds : List SeedMod) (d : String) :
    ∀ (L : List ModError) (st : LoopState),
      (∀ e ∈ st.edges, e.1 = d → e.2.2 = DepType.optional) →
      (∀ s ∈ seeds, s.project.id ≠ d) →
      ModError.notFound (some d) ∈ L →
      (∀ p ∈ (L.foldl (pruneStep seeds) st).nodes, p.1 ≠ d) ∧
      (∀ e ∈ (L.foldl (pruneStep seeds) st).edges, e.1 ≠ d) ∧
      pruneNotice d ∈ (L.foldl (pruneStep seeds) st).msgs := by
  intro L
  induction L with
  | nil => intro st _ _ hmem; cases hmem
  | cons e rest ih =>
    intro st hall hseed hmem
    by_cases he : e = ModError.notFound (some d)
    · subst he
      have hg := guard_true_of_pre hall hseed
      have hstep : pruneStep seeds st (ModError.notFound (some d)) =
          { st with
            errors := st.errors.erase (ModError.notFound (some d)),
            all_mods := st.all_mods.filter (fun p => p.1 != d),
            nodes := st.nodes.filter (fun p => p.1 != d),
            edges := st.edges.filter (fun e => e.1 != d),
            msgs := st.msgs ++ [pruneNotice d] } := by
        simp only [pruneStep, hg, if_true]
      show _ ∧ _ ∧ _
      rw [List.foldl_cons, hstep]
      refine pruned_preserved seeds d rest _ ?_ ?_ ?_
      · intro p hp
        have := (List.mem_filter.mp hp).2
        simpa using this
      · intro x hx
        have := (List.mem_filter.mp hx).2
        simpa using this
      · exact List.mem_append_right _ (by simp)
    · have hmem' : ModError.notFound (some d) ∈ rest := by
        rcases List.mem_cons.mp hmem with h | h
        · exact absurd h.symm he
        · exact h
      rw [List.foldl_cons]
      refine ih (pruneStep seeds st e) ?_ hseed hmem'
      intro x hx h1
      exact hall x (pruneStep_edges_sub seeds st e x hx) h1

/-- The fold drives the count of the NotFound error for d in the error
list to zero, provided every edge sourced at d is optional, no seed has id
d, and the state does not hold more occurrences than the fold list. -/
lemma prune_count (seeds : List SeedMod) (d : String) :
    ∀ (L : List ModError) (st : LoopState),
      (∀ e ∈ st.edges, e.1 = d → e.2.2 = DepType.optional) →
      (∀ s ∈ seeds, s.project.id ≠ d) →
      st.errors.count (ModError.notFound (some d)) ≤
        L.count (ModError.notFound (some d)) →
      (L.foldl (pruneStep seeds) st).errors.count (ModError.notFound (some d)) = 0 := by
  intro L
  induction L with
  | nil =>
    intro st _ _ hc
    simpa using Nat.le_zero.mp (by simpa using hc)
  | cons e rest ih =>
    intro st hall hseed hc
    rw [List.foldl_cons]
    by_cases he : e = ModError.notFound (some d)
    · subst he
      have hg := guard_true_of_pre hall hseed
      have hstep : pruneStep seeds st (ModError.notFound (some d)) =
          { st with
            errors := st.errors.erase (ModError.notFound (some d)),
            all_mods := st.all_mods.filter (fun p => p.1 != d),
            nodes := st.nodes.filter (fun p => p.1 != d),
            edges := st.edges.filter (fun e => e.1 != d),
            msgs := st.msgs ++ [pruneNotice d] } := by
        simp only [pruneStep, hg, if_true]
      refine ih _ ?_ hseed ?_
      · rw [hstep]
        intro x hx h1
        exact hall x (List.mem_filter.mp hx).1 h1
      · rw [hstep]
        show (st.errors.erase (ModError.notFound (some d))).count _ ≤ _
        rw [List.count_cons_self] at hc
        by_cases hm : ModError.notFound (some d) ∈ st.errors
        · rw [List.count_erase_self]
          omega
        · have h0 : st.errors.count (ModError.notFound (some d)) = 0 :=
            List.count_eq_zero.mpr hm
          have : (st.errors.erase (ModError.notFound (some d))).count
              (ModError.notFound (some d)) ≤
              st.errors.count (ModError.notFound (some d)) :=
            List.Sublist.count_le (List.erase_sublist _ _) _
          omega
    · rcases pruneStep_spec seeds st e with hst | ⟨d', he', hg, hst⟩
      · rw [hst]
        refine ih st hall hseed ?_
        rwa [List.count_cons_of_ne (by exact fun h => he h.symm)] at hc
      · have hdd : d' ≠ d := by
          intro h
          apply he
          rw [he', h]
        refine ih _ ?_ hseed ?_
        · rw [hst]
          intro x hx h1
          exact hall x (List.mem_filter.mp hx).1 h1
        · rw [hst]
          show (st.errors.erase e).count _ ≤ _
          have hne : e ≠ ModError.notFound (some d) := he
          rw [List.count_erase_of_ne (by exact fun h => he h.symm)]
          rwa [List.count_cons_of_ne (by exact fun h => he h.symm)] at hc

/-- A required edge sourced at d blocks the pruning of d: the edge and the
NotFound error both survive the whole fold. -/
lemma required_edge_kept (seeds : List SeedMod) (d mid : String) :
    ∀ (L : List ModError) (st : LoopState),
      (d, mid, DepType.required) ∈ st.edges →
      ModError.notFound (some d) ∈ st.errors →
      (d, mid, DepType.required) ∈ (L.foldl (pruneStep seeds) st).edges ∧
      ModError.notFound (some d) ∈ (L.foldl (pruneStep seeds) st).errors := by
  intro L
  induction L with
  | nil => intro st h1 h2; exact ⟨h1, h2⟩
  | cons e rest ih =>
    intro st hedge herr
    rw [List.foldl_cons]
    rcases pruneStep_spec seeds st e with hst | ⟨d', he', hg, hst⟩
    · rw [hst]; exact ih st hedge herr
    · have hdd : d' ≠ d := by
        intro h
        subst h
        have h2 := hg
        rw [Bool.and_eq_true] at h2
        have hall := h2.1
        rw [List.all_eq_true] at hall
        have hin : ((d', mid, DepType.required) : Edge) ∈
            st.edges.filter (fun e => e.1 == d') :=
          List.mem_filter.mpr ⟨hedge, by simp⟩
        have := hall _ hin
        simp at this
      refine ih _ ?_ ?_
      · rw [hst]
        refine List.mem_filter.mpr ⟨hedge, ?_⟩
        simp [hdd.symm]
      · rw [hst]
        have hne : ModError.notFound (some d) ≠ e := by
          rw [he']
          simp [hdd.symm]
        show ModError.notFound (some d) ∈ st.errors.erase e
        exact (List.mem_erase_of_ne hne).mpr herr

/- ### Lemmas about graph finalisation -/

lemma mapExcept_ok_mem {α β ε} {f : α → Except ε β} :
    ∀ {l : List α} {bs : List β}, mapExcept f l = .ok bs →
      ∀ b ∈ bs, ∃ a ∈ l, f a = .ok b := by
  intro l
  induction l with
  | nil =>
    intro bs h b hb
    simp only [mapExcept] at h
    cases h
    cases hb
  | cons x xs ih =>
    intro bs h b hb
    cases hfx : f x with
    | error e => simp only [mapExcept, hfx] at h; cases h
    | ok bx =>
      cases hrest : mapExcept f xs with
      | error e => simp only [mapExcept, hfx, hrest] at h; cases h
      | ok bxs =>
        simp only [mapExcept, hfx, hrest] at h
        cases h
        rcases List.mem_cons.mp hb with h1 | h1
        · subst h1; exact ⟨x, List.mem_cons_self _ _, hfx⟩
        · obtain ⟨a, ha, hfa⟩ := ih hrest b h1
          exact ⟨a, List.mem_cons_of_mem _ ha, hfa⟩

/-- Every error the edge pass appends is a structured incompatibility
conflict. -/
lemma edgeErrStep_shape {nodes : List (String × NodeInfo)} {edges : List Edge}
    {acc acc' : List ModError} {e : Edge}
    (h : edgeErrStep nodes edges acc e = .ok acc') :
    ∀ x ∈ acc', x ∈ acc ∨ ∃ a b c, x = ModError.incompat a b c := by
  unfold edgeErrStep at h
  cases h1 : dictGet nodes e.2.1 with
  | none => rw [h1] at h; cases h
  | some m =>
    cases h2 : dictGet nodes e.1 with
    | none => rw [h1, h2] at h; cases h
    | some dn =>
      rw [h1, h2] at h
      cases he : e.2.2 with
      | incompatible =>
        rw [he] at h
        cases h3 : trueDepsOf nodes edges e.1 with
        | error err => simp only [h3] at h; cases h
        | ok tds =>
          simp only [h3] at h
          cases h
          intro x hx
          rcases List.mem_append.mp hx with h4 | h4
          · exact Or.inl h4
          · right
            rcases List.mem_singleton.mp h4 with rfl
            exact ⟨_, _, _, rfl⟩
      | required => rw [he] at h; cases h; intro x hx; exact Or.inl hx
      | optional => rw [he] at h; cases h; intro x hx; exact Or.inl hx
      | embedded => rw [he] at h; cases h; intro x hx; exact Or.inl hx

lemma edgeErrors_fold_shape {nodes : List (String × NodeInfo)} {edges : List Edge} :
    ∀ (l : List Edge) (acc : List ModError),
      (∀ x ∈ acc, ∃ a b c, x = ModError.incompat a b c) →
      ∀ es, l.foldlM (edgeErrStep nodes edges) acc = .ok es →
        ∀ x ∈ es, ∃ a b c, x = ModError.incompat a b c := by
  intro l
  induction l with
  | nil =>
    intro acc hacc es h
    simp only [List.foldlM] at h
    cases h
    exact hacc
  | cons e rest ih =>
    intro acc hacc es h
    rw [List.foldlM_cons] at h
    cases hstep : edgeErrStep nodes edges acc e with
    | error err => rw [hstep] at h; cases h
    | ok acc' =>
      rw [hstep] at h
      refine ih acc' ?_ es h
      intro x hx
      rcases edgeErrStep_shape hstep x hx with h1 | h1
      · exact hacc x h1
      · exact h1

lemma exbind_ok {ε α β} (a : α) (f : α → Except ε β) :
    ((Except.ok a : Except ε α) >>= f) = f a := rfl

lemma exbind_error {ε α β} (e : ε) (f : α → Except ε β) :
    ((Except.error e : Except ε α) >>= f) = Except.error e := rfl

/-- graphPhase only appends incompatibility conflicts to the error list,
keeps the edge list, derives the node map keys from the loop's node map,
and returns (as the continue flag) whether the combined error list is
empty. -/
lemma graphPhase_spec {seeds : List SeedMod} {st : LoopState} {r : RunResult}
    (h : graphPhase seeds st = .ok r) :
    (∃ extra, r.errors = st.errors ++ extra ∧
      ∀ x ∈ extra, ∃ a b c, x = ModError.incompat a b c) ∧
    r.edges = st.edges ∧
    (∀ q ∈ r.nodes, ∃ p ∈ st.nodes, q.1 = p.1) ∧
    r.shouldContinue = r.errors.isEmpty := by
  cases h1 : buildNodes seeds st.edges st.nodes with
  | error e =>
    rw [show graphPhase seeds st = Except.error e by
      unfold graphPhase; rw [h1]; simp only [exbind_error]] at h
    cases h
  | ok ns =>
    cases h2 : edgeErrors ns st.edges with
    | error e =>
      rw [show graphPhase seeds st = Except.error e by
        unfold graphPhase; rw [h1]; simp only [exbind_ok]; rw [h2]
        simp only [exbind_error]] at h
      cases h
    | ok es =>
      have hval : graphPhase seeds st = Except.ok
          { nodes := ns, edges := st.edges, errors := st.errors ++ es,
            msgs := st.msgs, shouldContinue := (st.errors ++ es).isEmpty } := by
        unfold graphPhase
        rw [h1]
        simp only [exbind_ok]
        rw [h2]
        simp only [exbind_ok]
      rw [hval] at h
      injection h with h
      subst h
      refine ⟨⟨es, rfl, ?_⟩, rfl, ?_, rfl⟩
      · exact edgeErrors_fold_shape st.edges [] (by intro x hx; cases hx) es h2
      · intro q hq
        obtain ⟨p, hp, hfp⟩ := mapExcept_ok_mem h1 q hq
        cases hp2 : p.2 with
        | none => rw [hp2] at hfp; cases hfp
        | some a =>
          rw [hp2] at hfp
          cases hfp
          exact ⟨p, hp, rfl⟩

/-- C1: after the dependency graph is complete, a node d whose resolution
failed with NotFound (the error carrying d) is pruned when every edge
sourced at d in the graph is optional (and at least one exists) and d is
not a seed mod (dependency-resolution failures never concern seed ids,
since seeds resolve before the resolver runs): the node, its NotFound
error and all edges sourced at d are removed and a removal notice is
emitted instead — and this removal survives graph finalisation.  When d is
also reachable via a required edge, its NotFound error instead remains in
the final error list and resolve_dependencies returns the halt value. -/
theorem optional_chain_pruning (seeds : List SeedMod) (st : LoopState) (d mid : String)
    (hseed : ∀ s ∈ seeds, s.project.id ≠ d) :
    (ModError.notFound (some d) ∈ st.errors →
      (∀ e ∈ st.edges, e.1 = d → e.2.2 = DepType.optional) →
      (∃ e ∈ st.edges, e.1 = d) →
      (∀ p ∈ (pruneErrors seeds st).nodes, p.1 ≠ d) ∧
      (∀ e ∈ (pruneErrors seeds st).edges, e.1 ≠ d) ∧
      ModError.notFound (some d) ∉ (pruneErrors seeds st).errors ∧
      pruneNotice d ∈ (pruneErrors seeds st).msgs ∧
      (∀ r, graphPhase seeds (pruneErrors seeds st) = .ok r →
        (∀ q ∈ r.nodes, q.1 ≠ d) ∧ (∀ e ∈ r.edges, e.1 ≠ d) ∧
        ModError.notFound (some d) ∉ r.errors)) ∧
    ((d, mid, DepType.required) ∈ st.edges →
      ModError.notFound (some d) ∈ st.errors →
      ModError.notFound (some d) ∈ (pruneErrors seeds st).errors ∧
      (∀ r, graphPhase seeds (pruneErrors seeds st) = .ok r →
        ModError.notFound (some d) ∈ r.errors ∧ r.shouldContinue = false)) := by
  constructor
  · intro hmem hall hex
    have hfires := prune_fires seeds d st.errors st hall hseed hmem
    have hcount := prune_count seeds d st.errors st hall hseed le_rfl
    have hnotmem : ModError.notFound (some d) ∉
        (st.errors.foldl (pruneStep seeds) st).errors :=
      List.count_eq_zero.mp hcount
    simp only [pruneErrors]
    refine ⟨hfires.1, hfires.2.1, hnotmem, hfires.2.2, ?_⟩
    intro r hr
    obtain ⟨⟨extra, herrs, hsh⟩, hedges, hnodes, hcont⟩ := graphPhase_spec hr
    refine ⟨?_, ?_, ?_⟩
    · intro q hq
      obtain ⟨p, hp, hqp⟩ := hnodes q hq
      rw [hqp]
      exact hfires.1 p hp
    · intro e he
      rw [hedges] at he
      exact hfires.2.1 e he
    · rw [herrs]
      intro hin
      rcases List.mem_append.mp hin with h1 | h1
      · exact hnotmem h1
      · obtain ⟨a, b, c, habc⟩ := hsh _ h1
        exact ModError.noConfusion habc
  · intro hedge herr2
    have hkept := required_edge_kept seeds d mid st.errors st hedge herr2
    simp only [pruneErrors]
    refine ⟨hkept.2, ?_⟩
    intro r hr
    obtain ⟨⟨extra, herrs, hsh⟩, hedges, hnodes, hcont⟩ := graphPhase_spec hr
    have hmem2 : ModError.notFound (some d) ∈ r.errors := by
      rw [herrs]
      exact List.mem_append_left _ hkept.2
    refine ⟨hmem2, ?_⟩
    rw [hcont]
    cases hr2 : r.errors with
    | nil => rw [hr2] at hmem2; cases hmem2
    | cons a l => simp

/-- C1 (witness): a failed node reachable only through one optional edge
is pruned with a notice; a failed node reachable through a required edge
keeps its error. -/
theorem optional_chain_pruning_witness :
    (ModError.notFound (some "DDDD") ∉
        (pruneErrors []
          ⟨[("DDDD", some (failedNode ⟨"DDDD", "Delta", "mod-d"⟩))],
            [("DDDD", "MMMM", DepType.optional)],
            [ModError.notFound (some "DDDD")], [], [], []⟩).errors ∧
      pruneNotice "DDDD" ∈
        (pruneErrors []
          ⟨[("DDDD", some (failedNode ⟨"DDDD", "Delta", "mod-d"⟩))],
            [("DDDD", "MMMM", DepType.optional)],
            [ModError.notFound (some "DDDD")], [], [], []⟩).msgs) ∧
    ModError.notFound (some "EEEE") ∈
      (pruneErrors []
        ⟨[("EEEE", some (failedNode ⟨"EEEE", "Epsilon", "mod-e"⟩))],
          [("EEEE", "MMMM", DepType.required)],
          [ModError.notFound (some "EEEE")], [], [], []⟩).errors := by
  constructor
  · have h := optional_chain_pruning []
      ⟨[("DDDD", some (failedNode ⟨"DDDD", "Delta", "mod-d"⟩))],
        [("DDDD", "MMMM", DepType.optional)],
        [ModError.notFound (some "DDDD")], [], [], []⟩
      "DDDD" "MMMM" (by intro s hs; cases hs)
    have h1 := h.1 (by decide) (by decide)
      ⟨("DDDD", "MMMM", DepType.optional), by decide, rfl⟩
    exact ⟨h1.2.2.1, h1.2.2.2.1⟩
  · have h := optional_chain_pruning []
      ⟨[("EEEE", some (failedNode ⟨"EEEE", "Epsilon", "mod-e"⟩))],
        [("EEEE", "MMMM", DepType.required)],
        [ModError.notFound (some "EEEE")], [], [], []⟩
      "EEEE" "MMMM" (by intro s hs; cases hs)
    exact (h.2 (by decide) (by decide)).1

/- ### Lemmas about the frontier loop (termination) -/

lemma dictContains_mono {α} (l : List (String × α)) (k : String) (v : α)
    (x : String) (h : dictContains l x = true) :
    dictContains (dictSet l k v) x = true := by
  unfold dictSet
  by_cases hk : l.any (fun p => p.1 == k) = true
  · rw [if_pos hk]
    unfold dictContains at h ⊢
    rw [List.any_map]
    rw [List.any_eq_true] at h ⊢
    obtain ⟨p, hp, hpx⟩ := h
    refine ⟨p, hp, ?_⟩
    show ((if p.1 == k then (k, v) else p).1 == x) = true
    by_cases hpk : (p.1 == k) = true
    · rw [if_pos hpk]
      have h1 : p.1 = k := by simpa using hpk
      rw [← h1]
      exact hpx
    · rw [if_neg hpk]
      exact hpx
  · rw [if_neg hk]
    unfold dictContains at h ⊢
    rw [List.any_append, h, Bool.true_or]

lemma dictContains_set_self {α} (l : List (String × α)) (k : String) (v : α) :
    dictContains (dictSet l k v) k = true := by
  unfold dictSet dictContains
  by_cases hk : l.any (fun p => p.1 == k) = true
  · rw [if_pos hk, List.any_map]
    rw [List.any_eq_true] at hk ⊢
    obtain ⟨p, hp, hpk⟩ := hk
    refine ⟨p, hp, ?_⟩
    show ((if p.1 == k then (k, v) else p).1 == k) = true
    rw [if_pos hpk]
    simp
  · rw [if_neg hk, List.any_append]
    have h2 : [(k, v)].any (fun p => p.1 == k) = true := by simp
    rw [h2, Bool.or_true]

/-- Monotonicity of the node map across resolver steps. -/
def NodesMono (st₀ st : LoopState) : Prop :=
  ∀ x, dictContains st₀.nodes x = true → dictContains st.nodes x = true

/-- When anything was queued during the round, some id of U entered the
node map that was absent at the round start. -/
def QInv (U : Finset String) (st₀ st : LoopState) : Prop :=
  st.queued ≠ [] →
    ∃ i ∈ U, dictContains st₀.nodes i = false ∧ dictContains st.nodes i = true

/-- Queued dependency mods are freshly constructed, hence unresolved. -/
def QNone (st : LoopState) : Prop := ∀ q ∈ st.queued, q.current_version = none

/-- Every dependency id of every frontier mod belongs to U. -/
def FrontierOK (U : Finset String) (frontier : List ModState) : Prop :=
  ∀ m ∈ frontier, ∀ pid ∈ depIds m.current_version, pid ∈ U

lemma modInit_shape {url : String} {m : ModState} (h : modInit url = .ok m) :
    m = ⟨lastSegment url, none, none⟩ := by
  unfold modInit at h
  dsimp only at h
  split at h
  · injection h with h; exact h.symm
  · cases h

lemma processDep_inv (cfg : Cfg) (mid : String) (U : Finset String)
    (st₀ st st' : LoopState) (dep : RawDep)
    (hU : ∀ pid, dep.project_id = some pid → pid ∈ U)
    (hm : NodesMono st₀ st) (hq : QInv U st₀ st) (hn : QNone st)
    (h : processDep cfg mid st dep = .ok st') :
    NodesMono st₀ st' ∧ QInv U st₀ st' ∧ QNone st' := by
  unfold processDep at h
  cases hpid : dep.project_id with
  | none =>
    rw [hpid] at h
    dsimp only at h
    injection h with h
    subst h
    exact ⟨hm, hq, hn⟩
  | some pid =>
    rw [hpid] at h
    dsimp only at h
    split at h
    · injection h with h
      subst h
      exact ⟨hm, hq, hn⟩
    · split at h
      · injection h with h
        subst h
        exact ⟨hm, hq, hn⟩
      · rename_i hnoskip hnew
        cases hmi : modInit pid with
        | error e => rw [hmi] at h; cases h
        | ok mnew =>
          rw [hmi] at h
          injection h with h
          subst h
          refine ⟨?_, ?_, ?_⟩
          · intro x hx
            exact dictContains_mono _ _ _ _ (hm x hx)
          · intro _
            refine ⟨pid, hU pid hpid, ?_, ?_⟩
            · cases h0 : dictContains st₀.nodes pid with
              | false => rfl
              | true => exact absurd (hm pid h0) hnew
            · exact dictContains_set_self _ _ _
          · intro q hqm
            rcases List.mem_append.mp hqm with h1 | h1
            · exact hn q h1
            · rcases List.mem_singleton.mp h1 with rfl
              rw [modInit_shape hmi]

lemma foldDeps_inv (cfg : Cfg) (mid : String) (U : Finset String) :
    ∀ (deps : List RawDep) (st₀ st st' : LoopState),
      (∀ d ∈ deps, ∀ pid, d.project_id = some pid → pid ∈ U) →
      NodesMono st₀ st → QInv U st₀ st → QNone st →
      deps.foldlM (processDep cfg mid) st = .ok st' →
      NodesMono st₀ st' ∧ QInv U st₀ st' ∧ QNone st' := by
  intro deps
  induction deps with
  | nil =>
    intro st₀ st st' _ hm hq hn h
    rw [List.foldlM_nil] at h
    injection h with h
    subst h
    exact ⟨hm, hq, hn⟩
  | cons dhead rest ih =>
    intro st₀ st st' hU hm hq hn h
    rw [List.foldlM_cons] at h
    cases hstep : processDep cfg mid st dhead with
    | error e => rw [hstep, exbind_error] at h; cases h
    | ok st₁ =>
      rw [hstep, exbind_ok] at h
      obtain ⟨hm1, hq1, hn1⟩ := processDep_inv cfg mid U st₀ st st₁ dhead
        (fun pid hp => hU dhead (List.mem_cons_self _ _) pid hp) hm hq hn hstep
      exact ih st₀ st₁ st' (fun d hd => hU d (List.mem_cons_of_mem _ hd)) hm1 hq1 hn1 h

lemma processFrontierMod_inv (cfg : Cfg) (U : Finset String)
    (st₀ st st' : LoopState) (m : ModState)
    (hU : ∀ pid ∈ depIds m.current_version, pid ∈ U)
    (hm : NodesMono st₀ st) (hq : QInv U st₀ st) (hn : QNone st)
    (h : processFrontierMod cfg st m = .ok st') :
    NodesMono st₀ st' ∧ QInv U st₀ st' ∧ QNone st' := by
  unfold processFrontierMod at h
  cases hp : m.projE with
  | error e => rw [hp, exbind_error] at h; cases h
  | ok p =>
    rw [hp, exbind_ok] at h
    dsimp only at h
    cases hcv : m.current_version with
    | none =>
      rw [hcv] at h
      injection h with h
      subst h
      refine ⟨?_, ?_, hn⟩
      · intro x hx
        exact dictContains_mono _ _ _ _ (hm x hx)
      · intro hne
        obtain ⟨i, hiU, h0, h1⟩ := hq hne
        exact ⟨i, hiU, h0, dictContains_mono _ _ _ _ h1⟩
    | some v =>
      rw [hcv] at h
      dsimp only at h
      have hU' : ∀ d ∈ v.dependencies, ∀ pid, d.project_id = some pid → pid ∈ U := by
        intro d hd pid hdp
        apply hU
        rw [hcv]
        unfold depIds
        exact List.mem_filterMap.mpr ⟨d, hd, hdp⟩
      refine foldDeps_inv cfg p.id U v.dependencies st₀
        { nodes := dictSet st.nodes p.id (some (okNode p v)), edges := st.edges,
          errors := st.errors, all_mods := dictSet st.all_mods p.id m,
          msgs := st.msgs, queued := st.queued } st' hU' ?_ ?_ ?_ h
      · intro x hx
        exact dictContains_mono _ _ _ _ (hm x hx)
      · intro hne
        obtain ⟨i, hiU, h0, h1⟩ := hq hne
        exact ⟨i, hiU, h0, dictContains_mono _ _ _ _ h1⟩
      · intro q hq2
        exact hn q hq2

lemma foldFrontier_inv (cfg : Cfg) (U : Finset String) :
    ∀ (frontier : List ModState) (st₀ st st' : LoopState),
      FrontierOK U frontier →
      NodesMono st₀ st → QInv U st₀ st → QNone st →
      frontier.foldlM (processFrontierMod cfg) st = .ok st' →
      NodesMono st₀ st' ∧ QInv U st₀ st' ∧ QNone st' := by
  intro frontier
  induction frontier with
  | nil =>
    intro st₀ st st' _ hm hq hn h
    rw [List.foldlM_nil] at h
    injection h with h
    subst h
    exact ⟨hm, hq, hn⟩
  | cons mhead rest ih =>
    intro st₀ st st' hF hm hq hn h
    rw [List.foldlM_cons] at h
    cases hstep : processFrontierMod cfg st mhead with
    | error e => rw [hstep, exbind_error] at h; cases h
    | ok st₁ =>
      rw [hstep, exbind_ok] at h
      obtain ⟨hm1, hq1, hn1⟩ := processFrontierMod_inv cfg U st₀ st st₁ mhead
        (hF mhead (List.mem_cons_self _ _)) hm hq hn hstep
      exact ih st₀ st₁ st' (fun x hx => hF x (List.mem_cons_of_mem _ hx)) hm1 hq1 hn1 h

lemma dictGet_mem {α} {l : List (String × α)} {k : String} {v : α}
    (h : dictGet l k = some v) : ∃ p ∈ l, p.2 = v := by
  unfold dictGet at h
  cases hf : l.find? (fun p => p.1 == k) with
  | none => rw [hf] at h; cases h
  | some p =>
    rw [hf] at h
    injection h with h
    exact ⟨p, List.mem_of_find?_eq_some hf, h⟩

lemma query_version_mem {gv ld pid : String} {versions : List VersionData}
    {v : VersionData} (h : query_version gv ld pid versions = .ok v) :
    v ∈ versions := by
  simp only [query_version] at h
  cases hf : versions.find? (versionMatches gv ld) with
  | none => rw [hf] at h; cases h
  | some w =>
    rw [hf] at h
    simp only [Except.ok.injEq] at h
    subst h
    exact List.mem_of_find?_eq_some hf

/-- The worker leaves a freshly constructed dependency mod either without
a version or with a version drawn from the registry, so every dependency
id it can contribute lies in regDepIds. -/
lemma resolveDepMod_cv (cfg : Cfg) (reg : Registry) (q : ModState)
    (hq : q.current_version = none) :
    ∀ pid ∈ depIds (resolveDepMod cfg reg q).1.current_version,
      pid ∈ regDepIds reg := by
  intro pid hpid
  unfold resolveDepMod at hpid
  cases hg : dictGet reg q.slug_or_id with
  | none =>
    rw [hg] at hpid
    dsimp only at hpid
    rw [hq] at hpid
    simp [depIds] at hpid
  | some e =>
    rw [hg] at hpid
    dsimp only at hpid
    split at hpid
    · dsimp only at hpid
      rw [hq] at hpid
      simp [depIds] at hpid
    · split at hpid
      · dsimp only at hpid
        rw [hq] at hpid
        simp [depIds] at hpid
      · cases hqv : query_version cfg.target_version cfg.target_loader
            q.slug_or_id e.versions with
        | error err =>
          rw [hqv] at hpid
          dsimp only at hpid
          rw [hq] at hpid
          simp [depIds] at hpid
        | ok v =>
          rw [hqv] at hpid
          dsimp only at hpid
          obtain ⟨p, hpmem, hpe⟩ := dictGet_mem hg
          unfold regDepIds
          rw [List.mem_flatMap]
          refine ⟨p, hpmem, ?_⟩
          rw [List.mem_flatMap]
          refine ⟨v, ?_, hpid⟩
          rw [hpe]
          exact query_version_mem hqv

lemma runRound_inv (cfg : Cfg) (reg : Registry) (U : Finset String)
    (hregU : ∀ pid ∈ regDepIds reg, pid ∈ U)
    (st st' : LoopState) (frontier next : List ModState)
    (hF : FrontierOK U frontier)
    (h : runRound cfg reg st frontier = .ok (st', next)) :
    NodesMono st st' ∧
    (next ≠ [] →
      ∃ i ∈ U, dictContains st.nodes i = false ∧ dictContains st'.nodes i = true) ∧
    FrontierOK U next := by
  unfold runRound at h
  cases hf : frontier.foldlM (processFrontierMod cfg) { st with queued := [] } with
  | error e => rw [hf, exbind_error] at h; cases h
  | ok st₁ =>
    rw [hf, exbind_ok] at h
    dsimp only at h
    injection h with h
    rw [Prod.mk.injEq] at h
    obtain ⟨h1, h2⟩ := h
    obtain ⟨hm1, hq1, hn1⟩ := foldFrontier_inv cfg U frontier st
      { st with queued := [] } st₁ hF (fun x hx => hx)
      (fun hne => absurd rfl hne) (fun q hq2 => absurd hq2 (List.not_mem_nil q)) hf
    subst h1
    subst h2
    refine ⟨?_, ?_, ?_⟩
    · intro x hx
      exact hm1 x hx
    · intro hne
      have hqne : st₁.queued ≠ [] := by
        intro hqe
        apply hne
        rw [hqe]
        rfl
      obtain ⟨i, hiU, h0, h3⟩ := hq1 hqne
      exact ⟨i, hiU, h0, h3⟩
    · intro m' hm' pid hpid
      obtain ⟨r, hr, hr2⟩ := List.mem_map.mp hm'
      obtain ⟨qmod, hqmod, hq2⟩ := List.mem_map.mp hr
      have hcv : qmod.current_version = none := hn1 qmod hqmod
      apply hregU
      apply resolveDepMod_cv cfg reg qmod hcv
      rw [hq2, hr2]
      exact hpid

/-- The number of ids of U not yet in the node map. -/
def unseenCount (U : Finset String) (st : LoopState) : ℕ :=
  (U.filter (fun i => dictContains st.nodes i = false)).card

lemma unseen_lt (U : Finset String) (st st' : LoopState)
    (hmono : NodesMono st st')
    (hw : ∃ i ∈ U, dictContains st.nodes i = false ∧
      dictContains st'.nodes i = true) :
    unseenCount U st' < unseenCount U st := by
  obtain ⟨i, hiU, hif, hit⟩ := hw
  have hsub : U.filter (fun j => dictContains st'.nodes j = false) ⊆
      U.filter (fun j => dictContains st.nodes j = false) := by
    intro x hx
    have hx' := Finset.mem_filter.mp hx
    refine Finset.mem_filter.mpr ⟨hx'.1, ?_⟩
    cases hcs : dictContains st.nodes x with
    | false => rfl
    | true =>
      have h2 := hmono x hcs
      have h3 := hx'.2
      rw [h2] at h3
      cases h3
  apply Finset.card_lt_card
  rw [Finset.ssubset_iff_of_subset hsub]
  refine ⟨i, Finset.mem_filter.mpr ⟨hiU, hif⟩, ?_⟩
  intro hmem
  have h4 := (Finset.mem_filter.mp hmem).2
  rw [hit] at h4
  cases h4

/-- With fuel exceeding the number of unseen ids by two, the loop never
runs out of fuel. -/
lemma expandLoop_some (cfg : Cfg) (reg : Registry) (U : Finset String)
    (hregU : ∀ pid ∈ regDepIds reg, pid ∈ U) :
    ∀ (fuel : ℕ) (st : LoopState) (frontier : List ModState),
      FrontierOK U frontier →
      unseenCount U st + 2 ≤ fuel →
      expandLoop cfg reg fuel st frontier ≠ none := by
  intro fuel
  induction fuel with
  | zero => intro st frontier _ hfuel; exact absurd hfuel (by omega)
  | succ k ih =>
    intro st frontier hF hfuel
    cases frontier with
    | nil => simp [expandLoop]
    | cons m ms =>
      cases hr : runRound cfg reg st (m :: ms) with
      | error e => simp [expandLoop, hr]
      | ok p =>
        obtain ⟨st', next⟩ := p
        have hinv := runRound_inv cfg reg U hregU st st' (m :: ms) next hF hr
        have hred : expandLoop cfg reg (k + 1) st (m :: ms) =
            expandLoop cfg reg k st' next := by
          simp [expandLoop, hr]
        rw [hred]
        by_cases hne : next = []
        · subst hne
          have hk : 1 ≤ k := by omega
          cases k with
          | zero => omega
          | succ k2 => simp [expandLoop]
        · have hlt := unseen_lt U st st' hinv.1 (hinv.2.1 hne)
          exact ih st' next hinv.2.2 (by omega)

/-- C4: resolve_dependencies terminates on every finite registry and seed
list (cyclic dependency graphs included): the frontier loop completes
within the fuel bound because a dependency target whose id is already in
the node map is never re-queued, so each round with a nonempty next
frontier strictly grows the node map within a fixed finite id universe,
and the loop exits as soon as a round queues nothing. -/
theorem resolver_terminates (cfg : Cfg) (reg : Registry) (seeds : List SeedMod) :
    resolve_dependencies cfg reg seeds ≠ none := by
  unfold resolve_dependencies
  have hU : ∀ pid ∈ regDepIds reg, pid ∈ (allIds reg seeds).toFinset := by
    intro pid hp
    rw [List.mem_toFinset]
    exact List.mem_append_right _ hp
  have hF : FrontierOK (allIds reg seeds).toFinset (seeds.map SeedMod.toModState) := by
    intro m hm pid hpid
    obtain ⟨s, hs, hsm⟩ := List.mem_map.mp hm
    rw [List.mem_toFinset]
    apply List.mem_append_left
    rw [List.mem_flatMap]
    refine ⟨s, hs, ?_⟩
    rw [← hsm] at hpid
    exact hpid
  have hfuel : unseenCount (allIds reg seeds).toFinset initState + 2 ≤
      fuelBound reg seeds := by
    have h1 : unseenCount (allIds reg seeds).toFinset initState ≤
        (allIds reg seeds).toFinset.card := Finset.card_filter_le _ _
    have h2 : (allIds reg seeds).toFinset.card ≤ (allIds reg seeds).length :=
      List.toFinset_card_le _
    unfold fuelBound
    omega
  have hsome := expandLoop_some cfg reg (allIds reg seeds).toFinset hU
    (fuelBound reg seeds) initState (seeds.map SeedMod.toModState) hF hfuel
  cases hE : expandLoop cfg reg (fuelBound reg seeds) initState
      (seeds.map SeedMod.toModState) with
  | none => exact absurd hE hsome
  | some r =>
    cases r with
    | error e => simp
    | ok st => simp

/- ### Concrete end-to-end scenarios -/

/-- The pipeline configuration used by the concrete scenarios. -/
def cfgT : Cfg := ⟨"1.20.1", "forge", true, true, false⟩

def verA : VersionData :=
  ⟨"1.0", ["1.20.1"], ["forge"], [⟨none, some "CCCC", DepType.required, none⟩]⟩

def verB : VersionData :=
  ⟨"2.0", ["1.20.1"], ["forge"], [⟨none, some "CCCC", DepType.incompatible, none⟩]⟩

def verC : VersionData := ⟨"3.0", ["1.20.1"], ["forge"], []⟩

/-- Seed A: requires C. -/
def seedA : SeedMod := ⟨"mod-a", ⟨"AAAA", "Alpha", "mod-a"⟩, some verA⟩

/-- Seed B: declares C incompatible. -/
def seedB : SeedMod := ⟨"mod-b", ⟨"BBBB", "Beta", "mod-b"⟩, some verB⟩

/-- The registry resolving C. -/
def regT : Registry := [("CCCC", ⟨"Gamma", "mod-c", "required", "required", [verC]⟩)]

/-- C2: for seeds [A, B] where A requires C and B is incompatible with C,
the finalized graph holds exactly the nodes A, C, B (in insertion order)
and the edges (C→A, required) and (C→B, incompatible); the run reports
exactly one incompatibility conflict — C (Gamma) is incompatible with B
(Beta), but A (Alpha) needs it — and returns the halt value false, so the
download stage does not run. -/
theorem incompatibility_scenario :
    resolve_dependencies cfgT regT [seedA, seedB] = some (.ok
      ⟨[("AAAA", ⟨"Alpha", "Alpha", "green", some verA,
            "https://modrinth.com/mod/mod-a"⟩),
          ("CCCC", ⟨"Gamma", "Gamma", "lightgreen", some verC,
            "https://modrinth.com/mod/mod-c"⟩),
          ("BBBB", ⟨"Beta", "Beta", "green", some verB,
            "https://modrinth.com/mod/mod-b"⟩)],
        [("CCCC", "AAAA", DepType.required),
          ("CCCC", "BBBB", DepType.incompatible)],
        [ModError.incompat "Gamma" "Beta" ["Alpha"]],
        [],
        false⟩) := by
  decide

/-- A seed whose chosen version requires a project id absent from the
registry. -/
def seedX : SeedMod :=
  ⟨"mod-x", ⟨"XXXX", "Xi", "mod-x"⟩,
    some ⟨"1.0", ["1.20.1"], ["forge"], [⟨none, some "GONE", DepType.required, none⟩]⟩⟩

/-- C3 (the code at the failing input): when the frontier mod "GONE"
fails its project resolution with NotFound (the registry is empty), the
next round's all_mods[mod.id()] call raises the uncaught
ModError("模组 GONE 还未初始化") and the whole resolver aborts — no
unreachable node for GONE is recorded and the remaining frontier is not
processed, contradicting the claim's failure tolerance for
project-resolution failures.  (Version-resolution failures are tolerated
as the claim states; the project stage is the slip.) -/
theorem project_notfound_crash :
    resolve_dependencies cfgT [] [seedX] =
      some (.error (ModError.notInit "GONE")) := by
  decide

/-- C4 (witness): the loop bound suffices on the concrete incompatibility
scenario. -/
theorem resolver_terminates_witness :
    resolve_dependencies cfgT regT [seedA, seedB] ≠ none :=
  resolver_terminates cfgT regT [seedA, seedB]
